import Mathlib

/-!
Verification of the collection reconciliation engine of
`xwingtmg2-inventory-rs`: expansion catalog loading, yasb name
resolution, and inventory aggregation, shallowly embedded in Lean.

Modelling conventions:
* Rust `BTreeMap`/`HashMap` values are association lists `List (K × V)`
  with unique keys in iteration order; `lookupA`/`insertA` mirror
  `get`/`insert` (insertion replaces in place, fresh keys append).
  Claims compare maps through lookups, which matches `BTreeMap` equality.
* `u32` is modelled as `Nat`; none of the verified properties depend on
  the `2 ^ 32` bound (all aggregation arithmetic is monotone addition).
* Fallible operations (`parse().unwrap()`) return `Option`/`Except`.
* `println!` diagnostics for duplicate singles are modelled as a
  collected list of the printed names.
-/

set_option autoImplicit false

/-! ### Association-list map model -/

def lookupA {K V : Type} [DecidableEq K] : List (K × V) → K → Option V
  | [], _ => none
  | p :: l, k => if p.1 = k then some p.2 else lookupA l k

def lookupD {K V : Type} [DecidableEq K] (l : List (K × V)) (k : K) (d : V) : V :=
  (lookupA l k).getD d

def insertA {K V : Type} [DecidableEq K] : List (K × V) → K → V → List (K × V)
  | [], k, v => [(k, v)]
  | p :: l, k, v => if p.1 = k then (k, v) :: l else p :: insertA l k v

/-! ### `src/expansions/mod.rs`: items, expansions, catalog -/

/-- Rust `ItemType` from `src/expansions/mod.rs`. -/
inductive ItemType where
  | Ship
  | Obstacle
  | Pilot
  | Upgrade
  | Damage
deriving DecidableEq

/-- Rust `Item` from `src/expansions/mod.rs`: a `type`/`xws` pair. -/
structure Item where
  type : ItemType
  xws : String
deriving DecidableEq

/-- Rust `ItemCount` from `src/expansions/mod.rs`. -/
structure ItemCount where
  item : Item
  count : Nat
deriving DecidableEq

/-- Rust `SKU` alias from `src/expansions/mod.rs`. -/
abbrev SKU := String

/-- Rust `Expansion` from `src/expansions/mod.rs` (`sku`, `name`, `contents`). -/
structure Expansion where
  sku : SKU
  name : String
  contents : List ItemCount
deriving DecidableEq

/-- Rust `Catalog` from `src/expansions/mod.rs`: sku-indexed expansions plus the
reverse item-to-sources index (source entries reuse `ItemCount` with the
sku stored in the `xws` field, as the Rust code does). -/
structure Catalog where
  expansions : List (SKU × Expansion)
  sources : List (Item × List ItemCount)
deriving DecidableEq

/-- The `ItemCount` pushed onto `catalog.sources` for content `c` of the
expansion with sku `sku` in `Catalog::load`. -/
def sourceEntry (sku : SKU) (c : ItemCount) : ItemCount :=
  { item := { type := c.item.type, xws := sku }, count := c.count }

/-- The inner `for c in &expansion.contents` loop of `Catalog::load`:
`entry(..).and_modify(push).or_insert(vec![..])` on the sources map. -/
def addSources (sku : SKU) : List (Item × List ItemCount) → List ItemCount →
    List (Item × List ItemCount)
  | srcs, [] => srcs
  | srcs, c :: rest =>
    addSources sku
      (match lookupA srcs c.item with
       | some s => insertA srcs c.item (s ++ [sourceEntry sku c])
       | none => insertA srcs c.item [sourceEntry sku c])
      rest

/-- The `for expansion in list.drain(..)` loop of `Catalog::load`: update
sources, then insert into `expansions`, failing on a repeated sku. -/
def loadLoop : Catalog → List Expansion → Except String Catalog
  | cat, [] => Except.ok cat
  | cat, e :: rest =>
    let srcs := addSources e.sku cat.sources e.contents
    match lookupA cat.expansions e.sku with
    | some _ => Except.error ("duplicate sku: " ++ e.sku)
    | none =>
      loadLoop { expansions := insertA cat.expansions e.sku e, sources := srcs } rest

/-- Rust `Catalog::load` from `src/expansions/mod.rs`, with the parsed expansion
list as input (file reading and JSON parsing are external collaborators). -/
def Catalog.load (list : List Expansion) : Except String Catalog :=
  loadLoop { expansions := [], sources := [] } list

/-! ### `src/lib.rs`: collection and inventory aggregation -/

/-- Rust `Collection` from `src/lib.rs`: sku counts plus single-item counts. -/
structure Collection where
  skus : List (SKU × Nat)
  singles : List (Item × Nat)

/-- The inner `for item_count in &expansion.contents` loop of
`Collection::inventory`: add `c * item_count.count` to the entry of each
content item, treating an absent entry as `0`. -/
def addContents (c : Nat) : List (Item × Nat) → List ItemCount → List (Item × Nat)
  | inv, [] => inv
  | inv, ic :: rest =>
    addContents c (insertA inv ic.item (lookupD inv ic.item 0 + c * ic.count)) rest

/-- The `for (sku, c) in &self.skus` loop of `Collection::inventory`. -/
def inventoryLoop (catalog : Catalog) :
    (List (Item × Nat) × List String) → List (SKU × Nat) →
    (List (Item × Nat) × List String)
  | acc, [] => acc
  | acc, p :: rest =>
    inventoryLoop catalog
      (match lookupA catalog.expansions p.1 with
       | some expansion => (addContents p.2 acc.1 expansion.contents, acc.2)
       | none => (acc.1, acc.2 ++ [p.1]))
      rest

/-- Rust `Collection::inventory` from `src/lib.rs`: start from a copy of
`singles`, aggregate each owned sku found in the catalog, and report the
skus the catalog does not know. -/
def Collection.inventory (self : Collection) (catalog : Catalog) :
    List (Item × Nat) × List String :=
  inventoryLoop catalog (self.singles, []) self.skus

/-! ### Closed-form helpers used in theorem statements -/

/-- Total count contributed for `it` by one contents list, one copy. -/
def contentsCount (contents : List ItemCount) (it : Item) : Nat :=
  ((contents.filter (fun ic => decide (ic.item = it))).map ItemCount.count).sum

/-- Contribution of one `(sku, count)` ownership pair to item `it`. -/
def contribOf (catalog : Catalog) (it : Item) (p : SKU × Nat) : Nat :=
  match lookupA catalog.expansions p.1 with
  | some e => p.2 * contentsCount e.contents it
  | none => 0

/-- Whether one `(sku, count)` pair resolves to an expansion whose
contents mention `it` (and therefore creates an inventory entry). -/
def touches (catalog : Catalog) (it : Item) (p : SKU × Nat) : Bool :=
  match lookupA catalog.expansions p.1 with
  | some e => e.contents.any (fun ic => decide (ic.item = it))
  | none => false

/-- The unresolved-sku diagnostic contributed by one ownership pair. -/
def missOf (catalog : Catalog) (p : SKU × Nat) : List String :=
  match lookupA catalog.expansions p.1 with
  | some _ => []
  | none => [p.1]

/-- Map component of `inventoryLoop` (the missing-sku diagnostics do not
feed back into the aggregation). -/
def invFold (catalog : Catalog) : List (Item × Nat) → List (SKU × Nat) → List (Item × Nat)
  | inv, [] => inv
  | inv, p :: rest =>
    invFold catalog
      (match lookupA catalog.expansions p.1 with
       | some e => addContents p.2 inv e.contents
       | none => inv)
      rest

/-- All source entries for `it` produced by loading `list`, in order. -/
def sourcesFor (list : List Expansion) (it : Item) : List ItemCount :=
  list.flatMap (fun e => (e.contents.filter (fun c => decide (c.item = it))).map (sourceEntry e.sku))

/-- The content count an expansion's contents give for item `it`
(first occurrence; `0` when the item is absent). -/
def contentCountOf (e : Expansion) (it : Item) : Nat :=
  ((e.contents.find? (fun c => decide (c.item = it))).map ItemCount.count).getD 0

/-! ### `src/yasb2/mod.rs`: name resolution and collection import -/

namespace yasb2

/-- Rust `char::is_alphanumeric` (Unicode classes Alphabetic, Nd, Nl,
No), modelled exactly for every code point below `U+0100`: ASCII digits
and letters, plus the Latin-1 alphanumerics `ª ² ³ µ ¹ º ¼ ½ ¾` and the
letter range `À`–`ÿ` minus the symbols `×` and `÷`.  Code points at
`U+0100` and above are outside the modelled character domain (the full
Unicode tables are not embedded) and classified non-alphanumeric;
theorems about canonicalization are scoped to the modelled domain. -/
def rustIsAlphanumeric (c : Char) : Bool :=
  let n := c.toNat
  (decide (48 ≤ n) && decide (n ≤ 57)) ||
  (decide (65 ≤ n) && decide (n ≤ 90)) ||
  (decide (97 ≤ n) && decide (n ≤ 122)) ||
  decide (n = 170) || decide (n = 178) || decide (n = 179) || decide (n = 181) ||
  decide (n = 185) || decide (n = 186) ||
  (decide (188 ≤ n) && decide (n ≤ 190)) ||
  (decide (192 ≤ n) && decide (n ≤ 255) && !decide (n = 215) && !decide (n = 247))

/-- Rust `to_canonical` from `src/yasb2/mod.rs`: keep alphanumeric
characters and `(`, map `(` to `-`, and apply `to_ascii_lowercase` to
the rest (`Char.toLower` lowercases exactly the ASCII range `A`–`Z`,
matching `char::to_ascii_lowercase`; non-ASCII characters pass through
unchanged). -/
def to_canonical (name : String) : String :=
  String.mk ((name.data.filter (fun c => rustIsAlphanumeric c || c == '(')).map
    (fun c => if c == '(' then '-' else c.toLower))

/-- Rust `to_xws` from `src/yasb2/mod.rs`: canonicalize, then apply the
per-kind static override tables.  The ship table in the source is fully
commented out, so ships (and every other non-pilot, non-upgrade kind)
return the canonicalized string unchanged. -/
def to_xws (name : String) (typ : ItemType) : String :=
  let xws := to_canonical name
  match typ with
  | ItemType.Pilot =>
    match xws with
    | "adigallia-delta7b" => "adigallia-delta7baethersprite"
    | "ahsokatano-awing" => "ahsokatano-rz1awing"
    | "blacksquadronace-t70" => "blacksquadronace-t70xwing"
    | "bossk-z95headhunter" => "bossk-z95af4headhunter"
    | "chewbacca-resistance" => "chewbacca-scavengedyt1300"
    | "corranhorn-xwing" => "corranhorn-t65xwing"
    | "dalanoberos-starviper" => "dalanoberos-starviperclassattackplatform"
    | "darthvader-tiedefender" => "darthvader-tieddefender"
    | "durge-separatist" => "durge-separatistalliance"
    | "ezrabridger-sheathipede" => "ezrabridger-sheathipedeclassshuttle"
    | "ezrabridger-tiefighter" => "ezrabridger-tielnfighter"
    | "fennrau-sheathipede" => "fennrau-sheathipedeclassshuttle"
    | "garvendreis-xwing" => "garvendreis-t65xwing"
    | "gideonhask-tieinterceptor" => "gideonhask-tieininterceptor"
    | "hansolo-resistance" => "hansolo-scavengedyt1300"
    | "herasyndulla-awing" => "herasyndulla-rz1awing"
    | "herasyndulla-bwing" => "herasyndulla-asf01bwing"
    | "herasyndulla-vcx100" => "herasyndulla-vcx100lightfreighter"
    | "landocalrissian-resistance" => "landocalrissian-scavengedyt1300"
    | "norrawexley-ywing" => "norrawexley-btla4ywing"
    | "poedameron-yt1300" => "poedameron-scavengedyt1300"
    | "sabinewren-awing" => "sabinewren-rz1awing"
    | "sabinewren-scum" => "sabinewren-lancerclasspursuitcraft"
    | "sabinewren-tiefighter" => "sabinewren-tielnfighter"
    | "sharabey-awing" => "sharabey-rz1awing"
    | "vultskerris-tieinterceptor" => "vultskerris-tieininterceptor"
    | "wedgeantilles-awing" => "wedgeantilles-rz1awing"
    | "zeborrelios-sheathipede" => "zeborrelios-sheathipedeclassshuttle"
    | "zeborrelios-tiefighter" => "zeborrelios-tielnfighter"
    | x => x
  | ItemType.Upgrade =>
    match xws with
    | "b6bladewingprototype-epic" => "b6bladewingprototype-command"
    | "c3po-resistance" => "c3po-crew"
    | "chewbacca-resistance" => "chewbacca-crew"
    | "chopper-astromech" => "chopper"
    | "hansolo-resistance" => "hansolo-crew"
    | "rey" => "rey-gunner"
    | "vectoredcannons-rz1" => "vectoredcannonsrz1"
    | x => x
  | ItemType.Ship => xws
  | _ => xws

/-- Modelled from the spec: the `expansions::Expansion` revision consumed
by `Collection::to_xws_collection` is not under `src/` (only its callers
are).  §3 gives `Expansion = {sku, name, wave, contents}`; the edition
consulted by the caller through `edition()` is modelled as a stored
field. -/
structure Expansion where
  sku : SKU
  name : String
  wave : Nat
  contents : List ItemCount
  edition : Nat
deriving DecidableEq

/-- Modelled from the spec: the `Expansions` list consumed by
`Collection::to_xws_collection` (ordered list of expansions, §6). -/
abbrev Expansions := List Expansion

/-- Rust `has_item` from `src/expansions.rs`, lifted to the expansion list
used by `to_xws_collection`: scan every expansion's contents for the
item. -/
def has_item (expansions : Expansions) (item : Item) : Bool :=
  expansions.any (fun e => e.contents.any (fun i => decide (i.item = item)))

/-- Rust `Singletons` from `src/yasb2/mod.rs`: per-kind display-name/count-string
maps (`HashMap` iteration modelled as list order). -/
structure Singletons where
  ship : Option (List (String × String))
  upgrade : Option (List (String × String))
  pilot : Option (List (String × String))

/-- Rust `Collection` from `src/yasb2/mod.rs`: raw yasb ownership declaration. -/
structure Collection where
  expansions : List (String × String)
  singletons : Option Singletons

/-- Rust `XwsCollection` from `src/yasb2/mod.rs`. -/
structure XwsCollection where
  item_counts : List ItemCount
  missing_singles : List Item
  missing_expansions : List String
deriving DecidableEq

/-- Decimal-digit accumulator for `parseU32`. -/
def parseDigits : List Char → Nat → Option Nat
  | [], acc => some acc
  | ch :: rest, acc =>
    if ch.isDigit then parseDigits rest (acc * 10 + (ch.toNat - 48)) else none

/-- Rust `str::parse::<u32>` (optional leading `+`, one or more decimal
digits, bounded by `2 ^ 32`); `none` models the `Err` that `unwrap`
panics on. -/
def parseU32 (s : String) : Option Nat :=
  let t := match s.data with
    | '+' :: rest => rest
    | l => l
  match t with
  | [] => none
  | _ =>
    match parseDigits t 0 with
    | some n => if n < 4294967296 then some n else none
    | none => none

/-- State threaded through the three singles loops of
`to_xws_collection`: resolved counts, missing singles, and the names of
the duplicate-single `println!` diagnostics. -/
structure ResolveState where
  item_counts : List (Item × Nat)
  missing_singles : List Item
  dups : List String
deriving DecidableEq

/-- One iteration of a singles loop of `to_xws_collection`: parse the
count (failure aborts, mirroring `unwrap`), skip zero counts, resolve the
name, divert unknown items to `missing_singles`, drop duplicates with a
diagnostic, otherwise insert. -/
def resolveSinglesStep (expansions : Expansions) (typ : ItemType)
    (st : ResolveState) (entry : String × String) : Option ResolveState :=
  match parseU32 entry.2 with
  | none => none
  | some n =>
    if n = 0 then some st
    else
      let item : Item := { type := typ, xws := to_xws entry.1 typ }
      if has_item expansions item = false then
        some { st with missing_singles := st.missing_singles ++ [item] }
      else if (lookupA st.item_counts item).isSome then
        some { st with dups := st.dups ++ [entry.1] }
      else
        some { st with item_counts := insertA st.item_counts item n }

/-- One singles loop (`for (name, c) in singles.<kind>`). -/
def resolveSingles (expansions : Expansions) (typ : ItemType) :
    ResolveState → List (String × String) → Option ResolveState
  | st, [] => some st
  | st, entry :: rest =>
    match resolveSinglesStep expansions typ st entry with
    | none => none
    | some st' => resolveSingles expansions typ st' rest

/-- State of the `'exp_search` loop of `to_xws_collection`. -/
structure ExpState where
  item_counts : List (Item × Nat)
  missing_expansions : List String
deriving DecidableEq

/-- One iteration of the `'exp_search` loop: parse the count, skip zero,
take the first edition-2 expansion with the declared name and aggregate
its contents, or record the name as missing. -/
def expStep (expansions : Expansions) (st : ExpState) (entry : String × String) :
    Option ExpState :=
  match parseU32 entry.2 with
  | none => none
  | some n =>
    if n = 0 then some st
    else
      match expansions.find? (fun ex => decide (ex.edition = 2) && decide (ex.name = entry.1)) with
      | some ex => some { st with item_counts := addContents n st.item_counts ex.contents }
      | none => some { st with missing_expansions := st.missing_expansions ++ [entry.1] }

/-- The `'exp_search: for (e, c) in &self.expansions` loop. -/
def expLoop (expansions : Expansions) :
    ExpState → List (String × String) → Option ExpState
  | st, [] => some st
  | st, entry :: rest =>
    match expStep expansions st entry with
    | none => none
    | some st' => expLoop expansions st' rest

/-- The three singles loops of `to_xws_collection` (upgrades, then
pilots, then ships, exactly as in the source), run when `singletons` is
present; the loops all start from the empty state. -/
def singlesPhase (expansions : Expansions) (singletons : Option Singletons) :
    Option ResolveState :=
  match singletons with
  | none => some { item_counts := [], missing_singles := [], dups := [] }
  | some singles =>
    match resolveSingles expansions ItemType.Upgrade
        { item_counts := [], missing_singles := [], dups := [] }
        (singles.upgrade.getD []) with
    | none => none
    | some st1 =>
      match resolveSingles expansions ItemType.Pilot st1 (singles.pilot.getD []) with
      | none => none
      | some st2 => resolveSingles expansions ItemType.Ship st2 (singles.ship.getD [])

/-- Rust `Collection::to_xws_collection` from `src/yasb2/mod.rs`.  Returns the
`XwsCollection` paired with the duplicate-single diagnostic names; `none`
models the panic of `parse().unwrap()` on a malformed count. -/
def Collection.to_xws_collection (self : Collection) (expansions : Expansions) :
    Option (XwsCollection × List String) :=
  match singlesPhase expansions self.singletons with
  | none => none
  | some st =>
    match expLoop expansions { item_counts := st.item_counts, missing_expansions := [] }
        self.expansions with
    | none => none
    | some est =>
      some ({ item_counts := est.item_counts.map (fun p => { item := p.1, count := p.2 }),
              missing_singles := st.missing_singles,
              missing_expansions := est.missing_expansions }, st.dups)

/-- The diagnostic contributed by one declared-expansion entry (used to
state the closed form of the `'exp_search` loop).  `parse` failures
contribute nothing because the whole run aborts. -/
def expMissOf (expansions : Expansions) (entry : String × String) : List String :=
  match parseU32 entry.2 with
  | none => []
  | some n =>
    if n = 0 then []
    else
      match expansions.find? (fun ex => decide (ex.edition = 2) && decide (ex.name = entry.1)) with
      | some _ => []
      | none => [entry.1]

/-- Map component of `expStep` (used to state its closed form). -/
def expMapStep (expansions : Expansions) (m : List (Item × Nat))
    (entry : String × String) : Option (List (Item × Nat)) :=
  match parseU32 entry.2 with
  | none => none
  | some n =>
    if n = 0 then some m
    else
      match expansions.find? (fun ex => decide (ex.edition = 2) && decide (ex.name = entry.1)) with
      | some ex => some (addContents n m ex.contents)
      | none => some m

/-- Map component of `expLoop`. -/
def expMapLoop (expansions : Expansions) :
    List (Item × Nat) → List (String × String) → Option (List (Item × Nat))
  | m, [] => some m
  | m, entry :: rest =>
    match expMapStep expansions m entry with
    | none => none
    | some m' => expMapLoop expansions m' rest

end yasb2

/-! ### Spec-side definitions and sample data -/

/-- The canonicalization described by the spec's words (§4.1), with the
lowercasing amended to what the code does: walk the characters in order;
`(` becomes `-`, other alphanumerics (Unicode-aware classes, see
`yasb2.rustIsAlphanumeric`) are kept ASCII-lowercased — non-ASCII
alphanumerics pass through unchanged — and everything else is removed. -/
def canonicalizeSpecChars : List Char → List Char
  | [] => []
  | c :: cs =>
    if c = '(' then '-' :: canonicalizeSpecChars cs
    else if yasb2.rustIsAlphanumeric c then c.toLower :: canonicalizeSpecChars cs
    else canonicalizeSpecChars cs

/-- Spec-side canonicalize, to be compared with `yasb2.to_canonical`. -/
def canonicalizeSpec (name : String) : String :=
  String.mk (canonicalizeSpecChars name.data)

/-- The `swz25` sample expansion from the module documentation of
`src/expansions/mod.rs` and §8 of the spec. -/
def swz25 : Expansion :=
  { sku := "swz25"
    name := "T-70 X-Wing Expansion Pack"
    contents :=
      [ { item := { type := ItemType.Ship, xws := "t70xwing" }, count := 1 }
      , { item := { type := ItemType.Pilot, xws := "poedameron" }, count := 1 }
      , { item := { type := ItemType.Upgrade, xws := "blackone" }, count := 1 }
      , { item := { type := ItemType.Upgrade, xws := "bb8" }, count := 1 } ] }

/-- A catalog holding only `swz25`. -/
def sampleCatalog : Catalog :=
  { expansions := [("swz25", swz25)], sources := [] }

/-- An expansion listing the same item twice in its contents (legal input
for `Catalog::load`, used to probe the provenance index). -/
def dupContents : Expansion :=
  { sku := "swz01"
    name := "Duplicated Contents"
    contents :=
      [ { item := { type := ItemType.Ship, xws := "a" }, count := 1 }
      , { item := { type := ItemType.Ship, xws := "a" }, count := 2 } ] }

/-- The catalog value produced by `Catalog.load [swz25]`. -/
def loadedSwz25 : Catalog :=
  { expansions := [("swz25", swz25)]
    sources :=
      [ ({ type := ItemType.Ship, xws := "t70xwing" },
          [{ item := { type := ItemType.Ship, xws := "swz25" }, count := 1 }])
      , ({ type := ItemType.Pilot, xws := "poedameron" },
          [{ item := { type := ItemType.Pilot, xws := "swz25" }, count := 1 }])
      , ({ type := ItemType.Upgrade, xws := "blackone" },
          [{ item := { type := ItemType.Upgrade, xws := "swz25" }, count := 1 }])
      , ({ type := ItemType.Upgrade, xws := "bb8" },
          [{ item := { type := ItemType.Upgrade, xws := "swz25" }, count := 1 }]) ] }

/-- The catalog value produced by `Catalog.load [dupContents]`. -/
def loadedDup : Catalog :=
  { expansions := [("swz01", dupContents)]
    sources :=
      [ ({ type := ItemType.Ship, xws := "a" },
          [ { item := { type := ItemType.Ship, xws := "swz01" }, count := 1 }
          , { item := { type := ItemType.Ship, xws := "swz01" }, count := 2 } ]) ] }

/-- A one-expansion edition-2 list in the shape consumed by
`to_xws_collection` (same contents as `swz25`). -/
def sampleExps2 : yasb2.Expansions :=
  [ { sku := "swz25", name := "T-70 X-Wing Expansion Pack", wave := 4
      contents := swz25.contents, edition := 2 } ]

/-! ### Map-model lemmas -/

theorem lookupA_insertA {K V : Type} [DecidableEq K] (l : List (K × V)) (k : K) (v : V)
    (x : K) : lookupA (insertA l k v) x = if k = x then some v else lookupA l x := by
  induction l with
  | nil => simp [insertA, lookupA]
  | cons p l ih =>
    by_cases hpk : p.1 = k
    · by_cases hkx : k = x
      · simp [insertA, lookupA, hpk, hkx]
      · simp [insertA, lookupA, hpk, hkx]
    · by_cases hpx : p.1 = x
      · have hkx : ¬(k = x) := fun h => hpk (hpx.trans h.symm)
        have hxk : ¬(x = k) := fun h => hkx h.symm
        simp [insertA, lookupA, hpk, hpx, hkx, hxk]
      · simp [insertA, lookupA, hpk, hpx, ih]

theorem insertA_append {K V : Type} [DecidableEq K] (l : List (K × V)) (k : K) (v : V)
    (h : lookupA l k = none) : insertA l k v = l ++ [(k, v)] := by
  induction l with
  | nil => rfl
  | cons p l ih =>
    simp only [lookupA] at h
    by_cases hpk : p.1 = k
    · simp [hpk] at h
    · simp only [insertA, if_neg hpk, List.cons_append, List.cons.injEq, true_and]
      exact ih (by simpa [hpk] using h)

/-! ### Closed form of `Collection::inventory` -/

theorem contentsCount_cons (ic : ItemCount) (rest : List ItemCount) (it : Item) :
    contentsCount (ic :: rest) it =
      (if ic.item = it then ic.count else 0) + contentsCount rest it := by
  by_cases h : ic.item = it <;> simp [contentsCount, List.filter_cons, h]

theorem contentsCount_eq_zero (contents : List ItemCount) (it : Item)
    (h : contents.any (fun ic => decide (ic.item = it)) = false) :
    contentsCount contents it = 0 := by
  induction contents with
  | nil => rfl
  | cons ic rest ih =>
    simp only [List.any_cons, Bool.or_eq_false_iff, decide_eq_false_iff_not] at h
    rw [contentsCount_cons, if_neg h.1, ih h.2]

theorem lookupA_addContents (c : Nat) (inv : List (Item × Nat))
    (contents : List ItemCount) (it : Item) :
    lookupA (addContents c inv contents) it =
      if (lookupA inv it).isSome || contents.any (fun ic => decide (ic.item = it))
      then some (lookupD inv it 0 + c * contentsCount contents it)
      else none := by
  induction contents generalizing inv with
  | nil =>
    cases h : lookupA inv it <;> simp [addContents, contentsCount, lookupD, h]
  | cons ic rest ih =>
    simp only [addContents]
    rw [ih]
    by_cases hit : ic.item = it
    · have h1 : lookupA (insertA inv ic.item (lookupD inv ic.item 0 + c * ic.count)) it =
          some (lookupD inv it 0 + c * ic.count) := by
        rw [lookupA_insertA, if_pos hit, hit]
      have h2 : lookupD (insertA inv ic.item (lookupD inv ic.item 0 + c * ic.count)) it 0 =
          lookupD inv it 0 + c * ic.count := by
        unfold lookupD
        rw [lookupA_insertA, if_pos hit, hit]
        rfl
      rw [h1, h2, contentsCount_cons, if_pos hit]
      simp [hit, Nat.mul_add, Nat.add_assoc]
    · have h1 : lookupA (insertA inv ic.item (lookupD inv ic.item 0 + c * ic.count)) it =
          lookupA inv it := by
        rw [lookupA_insertA, if_neg hit]
      have h2 : lookupD (insertA inv ic.item (lookupD inv ic.item 0 + c * ic.count)) it 0 =
          lookupD inv it 0 := by
        unfold lookupD
        rw [lookupA_insertA, if_neg hit]
      rw [h1, h2, contentsCount_cons, if_neg hit]
      simp [hit]

theorem lookupD_addContents (c : Nat) (inv : List (Item × Nat))
    (contents : List ItemCount) (it : Item) :
    lookupD (addContents c inv contents) it 0 =
      lookupD inv it 0 + c * contentsCount contents it := by
  induction contents generalizing inv with
  | nil => simp [addContents, contentsCount]
  | cons ic rest ih =>
    simp only [addContents]
    rw [ih, contentsCount_cons]
    by_cases hit : ic.item = it
    · have h1 : lookupD (insertA inv ic.item (lookupD inv ic.item 0 + c * ic.count)) it 0 =
          lookupD inv it 0 + c * ic.count := by
        unfold lookupD
        rw [lookupA_insertA, if_pos hit, hit]
        rfl
      rw [h1, if_pos hit]
      ring
    · have h1 : lookupD (insertA inv ic.item (lookupD inv ic.item 0 + c * ic.count)) it 0 =
          lookupD inv it 0 := by
        unfold lookupD
        rw [lookupA_insertA, if_neg hit]
      rw [h1, if_neg hit]
      ring

theorem lookupA_invFold (catalog : Catalog) (inv : List (Item × Nat))
    (skus : List (SKU × Nat)) (it : Item) :
    lookupA (invFold catalog inv skus) it =
      if (lookupA inv it).isSome || skus.any (touches catalog it)
      then some (lookupD inv it 0 + (skus.map (contribOf catalog it)).sum)
      else none := by
  induction skus generalizing inv with
  | nil =>
    cases h : lookupA inv it <;> simp [invFold, lookupD, h]
  | cons p rest ih =>
    simp only [invFold]
    cases hp : lookupA catalog.expansions p.1 with
    | none =>
      rw [ih]
      have htouch : touches catalog it p = false := by
        unfold touches
        rw [hp]
      have hcontrib : contribOf catalog it p = 0 := by
        unfold contribOf
        rw [hp]
      simp only [List.any_cons, List.map_cons, List.sum_cons, htouch, hcontrib,
        Bool.false_or, Nat.zero_add]
    | some e =>
      rw [ih, lookupD_addContents]
      have hsome : (lookupA (addContents p.2 inv e.contents) it).isSome =
          ((lookupA inv it).isSome || e.contents.any (fun ic => decide (ic.item = it))) := by
        rw [lookupA_addContents]
        cases hc : ((lookupA inv it).isSome ||
            e.contents.any (fun ic => decide (ic.item = it))) <;> simp [hc]
      have htouch : touches catalog it p = e.contents.any (fun ic => decide (ic.item = it)) := by
        unfold touches
        rw [hp]
      have hcontrib : contribOf catalog it p = p.2 * contentsCount e.contents it := by
        unfold contribOf
        rw [hp]
      rw [hsome]
      simp only [List.any_cons, List.map_cons, List.sum_cons, htouch, hcontrib]
      rw [Bool.or_assoc, Nat.add_assoc]

theorem inventoryLoop_eq (catalog : Catalog) (skus : List (SKU × Nat))
    (inv0 : List (Item × Nat)) (miss0 : List String) :
    inventoryLoop catalog (inv0, miss0) skus =
      (invFold catalog inv0 skus, miss0 ++ skus.flatMap (missOf catalog)) := by
  induction skus generalizing inv0 miss0 with
  | nil => simp [inventoryLoop, invFold]
  | cons p rest ih =>
    simp only [inventoryLoop, invFold]
    cases hp : lookupA catalog.expansions p.1 with
    | some e =>
      have hm : missOf catalog p = [] := by
        unfold missOf
        rw [hp]
      rw [ih]
      simp [hm]
    | none =>
      have hm : missOf catalog p = [p.1] := by
        unfold missOf
        rw [hp]
      rw [ih]
      simp [hm]

theorem inventory_eq (self : Collection) (catalog : Catalog) :
    self.inventory catalog =
      (invFold catalog self.singles self.skus, self.skus.flatMap (missOf catalog)) := by
  unfold Collection.inventory
  rw [inventoryLoop_eq]
  simp

theorem lookupA_inventory (self : Collection) (catalog : Catalog) (it : Item) :
    lookupA (self.inventory catalog).1 it =
      if (lookupA self.singles it).isSome || self.skus.any (touches catalog it)
      then some (lookupD self.singles it 0 + (self.skus.map (contribOf catalog it)).sum)
      else none := by
  rw [inventory_eq]
  exact lookupA_invFold catalog self.singles self.skus it

/-- C1: `Collection::inventory` starts from a copy of the singles map and,
for each owned `(sku, count)` pair whose sku the catalog knows, adds
`count * contentCount` to the entry of every item in that expansion's
contents, treating an absent entry as 0; concretely, owning 2 copies of
`swz25` with no singles yields an inventory mapping `t70xwing`,
`poedameron`, `blackone` and `bb8` to 2 each. -/
theorem inventory_adds_expansion_contents :
    (∀ (self : Collection) (catalog : Catalog) (it : Item),
      lookupA (self.inventory catalog).1 it =
        if (lookupA self.singles it).isSome || self.skus.any (touches catalog it)
        then some (lookupD self.singles it 0 + (self.skus.map (contribOf catalog it)).sum)
        else none)
    ∧ lookupA ((Collection.mk [("swz25", 2)] []).inventory sampleCatalog).1
        { type := ItemType.Ship, xws := "t70xwing" } = some 2
    ∧ lookupA ((Collection.mk [("swz25", 2)] []).inventory sampleCatalog).1
        { type := ItemType.Pilot, xws := "poedameron" } = some 2
    ∧ lookupA ((Collection.mk [("swz25", 2)] []).inventory sampleCatalog).1
        { type := ItemType.Upgrade, xws := "blackone" } = some 2
    ∧ lookupA ((Collection.mk [("swz25", 2)] []).inventory sampleCatalog).1
        { type := ItemType.Upgrade, xws := "bb8" } = some 2 := by
  refine ⟨lookupA_inventory, ?_, ?_, ?_, ?_⟩ <;> decide

/-- C6: aggregation is commutative with respect to the iteration order of
the sku counts: permuting `skus` before aggregating yields an identical
inventory map. -/
theorem inventory_perm_invariant (catalog : Catalog) (singles : List (Item × Nat))
    (l1 l2 : List (SKU × Nat)) (h : l1.Perm l2) (it : Item) :
    lookupA ((Collection.mk l1 singles).inventory catalog).1 it =
      lookupA ((Collection.mk l2 singles).inventory catalog).1 it := by
  rw [lookupA_inventory, lookupA_inventory]
  have hany : l1.any (touches catalog it) = l2.any (touches catalog it) := by
    cases h2 : l2.any (touches catalog it) with
    | true =>
      rw [List.any_eq_true] at h2 ⊢
      obtain ⟨x, hx, hpx⟩ := h2
      exact ⟨x, h.mem_iff.mpr hx, hpx⟩
    | false =>
      rw [List.any_eq_false] at h2 ⊢
      intro x hx
      exact h2 x (h.mem_iff.mp hx)
  have hsum : (l1.map (contribOf catalog it)).sum = (l2.map (contribOf catalog it)).sum :=
    (h.map (contribOf catalog it)).sum_eq
  simp only [hany, hsum]

/-- Witness for `inventory_perm_invariant` at a concrete two-element
permutation. -/
theorem inventory_perm_invariant_witness :
    lookupA ((Collection.mk [("swz25", 1), ("swz99", 2)] []).inventory sampleCatalog).1
        { type := ItemType.Ship, xws := "t70xwing" } =
      lookupA ((Collection.mk [("swz99", 2), ("swz25", 1)] []).inventory sampleCatalog).1
        { type := ItemType.Ship, xws := "t70xwing" } :=
  inventory_perm_invariant sampleCatalog [] [("swz25", 1), ("swz99", 2)]
    [("swz99", 2), ("swz25", 1)] (List.Perm.swap ("swz99", 2) ("swz25", 1) [])
    { type := ItemType.Ship, xws := "t70xwing" }

/-! ### `Catalog::load`: duplicate rejection and success shape -/

theorem loadLoop_ok_of (list : List Expansion) (cat : Catalog)
    (hnodup : (list.map Expansion.sku).Nodup)
    (hfresh : ∀ e ∈ list, lookupA cat.expansions e.sku = none) :
    ∃ cat', loadLoop cat list = Except.ok cat' ∧
      cat'.expansions = cat.expansions ++ list.map (fun e => (e.sku, e)) := by
  induction list generalizing cat with
  | nil => exact ⟨cat, rfl, by simp⟩
  | cons e rest ih =>
    have he : lookupA cat.expansions e.sku = none := hfresh e (List.mem_cons_self e rest)
    simp only [List.map_cons, List.nodup_cons] at hnodup
    have hfresh2 : ∀ e' ∈ rest,
        lookupA (insertA cat.expansions e.sku e) e'.sku = none := by
      intro e' he'
      rw [lookupA_insertA]
      have hne : ¬(e.sku = e'.sku) := by
        intro hcontra
        exact hnodup.1 (hcontra ▸ List.mem_map_of_mem Expansion.sku he')
      rw [if_neg hne]
      exact hfresh e' (List.mem_cons_of_mem e he')
    obtain ⟨cat', hok, hexp⟩ :=
      ih { expansions := insertA cat.expansions e.sku e
           sources := addSources e.sku cat.sources e.contents } hnodup.2 hfresh2
    refine ⟨cat', ?_, ?_⟩
    · simp only [loadLoop, he]
      exact hok
    · rw [hexp]
      simp [insertA_append cat.expansions e.sku e he]

theorem loadLoop_err_of (list : List Expansion) (cat : Catalog)
    (h : ¬(list.map Expansion.sku).Nodup ∨
      ∃ e ∈ list, (lookupA cat.expansions e.sku).isSome = true) :
    ∀ cat', loadLoop cat list ≠ Except.ok cat' := by
  induction list generalizing cat with
  | nil =>
    rcases h with h | ⟨e, he, _⟩
    · exact absurd List.nodup_nil h
    · exact absurd he (List.not_mem_nil e)
  | cons e rest ih =>
    intro cat'
    cases hlook : lookupA cat.expansions e.sku with
    | some found =>
      simp [loadLoop, hlook]
    | none =>
      simp only [loadLoop, hlook]
      refine ih _ ?_ cat'
      rcases h with h | ⟨e', he', hsome⟩
      · simp only [List.map_cons, List.nodup_cons, not_and] at h
        by_cases hmem : e.sku ∈ rest.map Expansion.sku
        · obtain ⟨e', he', hsku⟩ := List.mem_map.mp hmem
          refine Or.inr ⟨e', he', ?_⟩
          rw [lookupA_insertA, if_pos hsku.symm]
          rfl
        · exact Or.inl (h hmem)
      · rcases List.mem_cons.mp he' with rfl | he'
        · rw [hlook] at hsome
          exact absurd hsome (by simp)
        · refine Or.inr ⟨e', he', ?_⟩
          rw [lookupA_insertA]
          by_cases hsku : e.sku = e'.sku
          · rw [if_pos hsku]
            rfl
          · rw [if_neg hsku]
            exact hsome

/-- C2: loading a list with two expansions sharing a sku fails with no
catalog returned; loading a list with pairwise-distinct skus succeeds and
`expansions` holds exactly one entry per input expansion. -/
theorem catalog_load_unique_skus (list : List Expansion) :
    ((list.map Expansion.sku).Nodup →
      ∃ cat, Catalog.load list = Except.ok cat ∧
        cat.expansions = list.map (fun e => (e.sku, e)))
    ∧ (¬(list.map Expansion.sku).Nodup →
      ∀ cat, Catalog.load list ≠ Except.ok cat) := by
  constructor
  · intro hnodup
    obtain ⟨cat, hok, hexp⟩ :=
      loadLoop_ok_of list { expansions := [], sources := [] } hnodup
        (fun _ _ => rfl)
    exact ⟨cat, hok, by simpa using hexp⟩
  · intro hdup
    exact loadLoop_err_of list { expansions := [], sources := [] } (Or.inl hdup)

/-- Witness for `catalog_load_unique_skus`: a one-expansion list loads to
the expected map, and a list repeating `swz01` is rejected. -/
theorem catalog_load_unique_skus_witness :
    (∃ cat, Catalog.load [swz25] = Except.ok cat ∧
      cat.expansions = [swz25].map (fun e => (e.sku, e)))
    ∧ (∀ cat, Catalog.load [dupContents, dupContents] ≠ Except.ok cat) :=
  ⟨(catalog_load_unique_skus [swz25]).1 (by decide),
   (catalog_load_unique_skus [dupContents, dupContents]).2 (by decide)⟩

/-! ### `Catalog::load`: the provenance (sources) index -/

theorem filter_nil_of_any_false {α : Type} (p : α → Bool) (l : List α)
    (h : l.any p = false) : l.filter p = [] := by
  induction l with
  | nil => rfl
  | cons a l ih =>
    simp only [List.any_cons, Bool.or_eq_false_iff] at h
    simp [List.filter_cons, h.1, ih h.2]

theorem lookupA_addSources (sku : SKU) (srcs : List (Item × List ItemCount))
    (contents : List ItemCount) (i : Item) :
    lookupA (addSources sku srcs contents) i =
      if contents.any (fun c => decide (c.item = i))
      then some (lookupD srcs i [] ++
        (contents.filter (fun c => decide (c.item = i))).map (sourceEntry sku))
      else lookupA srcs i := by
  induction contents generalizing srcs with
  | nil => simp [addSources]
  | cons c rest ih =>
    have hstep : (match lookupA srcs c.item with
        | some s => insertA srcs c.item (s ++ [sourceEntry sku c])
        | none => insertA srcs c.item [sourceEntry sku c]) =
        insertA srcs c.item (lookupD srcs c.item [] ++ [sourceEntry sku c]) := by
      cases hl : lookupA srcs c.item with
      | some s => simp [lookupD, hl]
      | none => simp [lookupD, hl]
    simp only [addSources, hstep]
    rw [ih]
    by_cases hc : c.item = i
    · have h1 : lookupA (insertA srcs c.item (lookupD srcs c.item [] ++ [sourceEntry sku c])) i =
          some (lookupD srcs i [] ++ [sourceEntry sku c]) := by
        rw [lookupA_insertA, if_pos hc, hc]
      have h2 : lookupD (insertA srcs c.item (lookupD srcs c.item [] ++ [sourceEntry sku c])) i [] =
          lookupD srcs i [] ++ [sourceEntry sku c] := by
        unfold lookupD
        rw [lookupA_insertA, if_pos hc, hc]
        rfl
      cases hrest : rest.any (fun c => decide (c.item = i)) with
      | true =>
        rw [if_pos rfl, h2, if_pos (by simp [hc])]
        simp [List.filter_cons, hc, List.append_assoc]
      | false =>
        rw [if_neg Bool.false_ne_true, h1, if_pos (by simp [hc])]
        simp [List.filter_cons, hc, filter_nil_of_any_false _ rest hrest]
    · have h1 : lookupA (insertA srcs c.item (lookupD srcs c.item [] ++ [sourceEntry sku c])) i =
          lookupA srcs i := by
        rw [lookupA_insertA, if_neg hc]
      have h2 : lookupD (insertA srcs c.item (lookupD srcs c.item [] ++ [sourceEntry sku c])) i [] =
          lookupD srcs i [] := by
        unfold lookupD
        rw [lookupA_insertA, if_neg hc]
      rw [h1, h2]
      simp [List.any_cons, List.filter_cons, hc]

theorem lookupD_addSources (sku : SKU) (srcs : List (Item × List ItemCount))
    (contents : List ItemCount) (i : Item) :
    lookupD (addSources sku srcs contents) i [] =
      lookupD srcs i [] ++
        (contents.filter (fun c => decide (c.item = i))).map (sourceEntry sku) := by
  unfold lookupD
  rw [lookupA_addSources]
  cases hany : contents.any (fun c => decide (c.item = i)) with
  | true =>
    rw [if_pos rfl]
    rfl
  | false =>
    rw [if_neg Bool.false_ne_true]
    rw [filter_nil_of_any_false _ contents hany]
    simp

theorem sourcesFor_cons (e : Expansion) (rest : List Expansion) (i : Item) :
    sourcesFor (e :: rest) i =
      (e.contents.filter (fun c => decide (c.item = i))).map (sourceEntry e.sku) ++
        sourcesFor rest i := by
  simp [sourcesFor]

theorem sourcesFor_nil_of_any_false (list : List Expansion) (i : Item)
    (h : list.any (fun e => e.contents.any (fun c => decide (c.item = i))) = false) :
    sourcesFor list i = [] := by
  induction list with
  | nil => rfl
  | cons e rest ih =>
    simp only [List.any_cons, Bool.or_eq_false_iff] at h
    rw [sourcesFor_cons, filter_nil_of_any_false _ e.contents h.1, ih h.2]
    rfl

theorem loadLoop_sources (list : List Expansion) (cat cat' : Catalog)
    (hok : loadLoop cat list = Except.ok cat') (i : Item) :
    lookupA cat'.sources i =
      if list.any (fun e => e.contents.any (fun c => decide (c.item = i)))
      then some (lookupD cat.sources i [] ++ sourcesFor list i)
      else lookupA cat.sources i := by
  induction list generalizing cat with
  | nil =>
    cases hok
    simp
  | cons e rest ih =>
    simp only [loadLoop] at hok
    cases hlook : lookupA cat.expansions e.sku with
    | some found =>
      rw [hlook] at hok
      exact absurd hok (by simp)
    | none =>
      rw [hlook] at hok
      have hrec := ih _ hok
      have hsrc : (Catalog.mk (insertA cat.expansions e.sku e)
            (addSources e.sku cat.sources e.contents)).sources =
          addSources e.sku cat.sources e.contents := rfl
      rw [hsrc, lookupD_addSources, lookupA_addSources] at hrec
      rw [hrec, List.any_cons, sourcesFor_cons]
      cases hrest : rest.any (fun e => e.contents.any (fun c => decide (c.item = i))) with
      | true =>
        rw [if_pos rfl, if_pos (by simp)]
        simp [List.append_assoc]
      | false =>
        rw [if_neg Bool.false_ne_true, sourcesFor_nil_of_any_false rest i hrest]
        cases he : e.contents.any (fun c => decide (c.item = i)) with
        | true =>
          rw [if_pos rfl, if_pos (by simp)]
          simp
        | false =>
          rw [if_neg Bool.false_ne_true, if_neg (by simp)]

theorem filter_singleton_of_nodup (contents : List ItemCount) (i : Item)
    (h : (contents.map ItemCount.item).Nodup)
    (hany : contents.any (fun c => decide (c.item = i)) = true) :
    ∃ c, contents.find? (fun c => decide (c.item = i)) = some c ∧
      contents.filter (fun c => decide (c.item = i)) = [c] := by
  induction contents with
  | nil => simp at hany
  | cons c rest ih =>
    simp only [List.map_cons, List.nodup_cons] at h
    by_cases hc : c.item = i
    · refine ⟨c, List.find?_cons_of_pos _ (by simp [hc]), ?_⟩
      have hrest : rest.any (fun c => decide (c.item = i)) = false := by
        rw [List.any_eq_false]
        intro x hx
        simp only [decide_eq_true_eq]
        intro hxi
        apply h.1
        rw [hc, ← hxi]
        exact List.mem_map_of_mem ItemCount.item hx
      simp [List.filter_cons, hc, filter_nil_of_any_false _ rest hrest]
    · have hany2 : rest.any (fun c => decide (c.item = i)) = true := by
        simpa [List.any_cons, hc] using hany
      obtain ⟨cfound, hfind, hfilt⟩ := ih h.2 hany2
      refine ⟨cfound, ?_, ?_⟩
      · rw [List.find?_cons_of_neg _ (by simp [hc]), hfind]
      · simp [List.filter_cons, hc, hfilt]

theorem sourcesFor_map (list : List Expansion) (i : Item)
    (h : ∀ e ∈ list, (e.contents.map ItemCount.item).Nodup) :
    (sourcesFor list i).map (fun s => (s.item.xws, s.count)) =
      (list.filter (fun e => e.contents.any (fun c => decide (c.item = i)))).map
        (fun e => (e.sku, contentCountOf e i)) := by
  induction list with
  | nil => rfl
  | cons e rest ih =>
    rw [sourcesFor_cons, List.map_append, List.filter_cons]
    have hrest := ih (fun e' he' => h e' (List.mem_cons_of_mem e he'))
    cases he : e.contents.any (fun c => decide (c.item = i)) with
    | true =>
      obtain ⟨c, hfind, hfilt⟩ :=
        filter_singleton_of_nodup e.contents i (h e (List.mem_cons_self e rest)) he
      rw [hfilt, hrest, if_pos rfl]
      simp [sourceEntry, contentCountOf, hfind]
    | false =>
      rw [filter_nil_of_any_false _ e.contents he, hrest,
        if_neg Bool.false_ne_true]
      simp

/-- C9 (amended): after a successful catalog load, provided every
expansion lists each item at most once in its contents, `sources` holds
exactly one entry per catalog expansion that lists the item, carrying
that expansion's own per-copy content count (the sku is recorded in the
entry's `xws` field); the index depends only on the loaded expansion
list, never on ownership counts. -/
theorem sources_one_entry_per_expansion (list : List Expansion) (cat : Catalog)
    (hnodup : ∀ e ∈ list, (e.contents.map ItemCount.item).Nodup)
    (hok : Catalog.load list = Except.ok cat) (i : Item) :
    ((lookupA cat.sources i).getD []).map (fun s => (s.item.xws, s.count)) =
      (list.filter (fun e => e.contents.any (fun c => decide (c.item = i)))).map
        (fun e => (e.sku, contentCountOf e i)) := by
  have hs := loadLoop_sources list { expansions := [], sources := [] } cat hok i
  rw [hs]
  cases hany : list.any (fun e => e.contents.any (fun c => decide (c.item = i))) with
  | true =>
    rw [if_pos rfl]
    simpa [lookupD, lookupA] using sourcesFor_map list i hnodup
  | false =>
    rw [if_neg Bool.false_ne_true, filter_nil_of_any_false _ list hany]
    rfl

/-- Witness for `sources_one_entry_per_expansion` on the loaded `swz25`
catalog at the `t70xwing` ship item. -/
theorem sources_one_entry_per_expansion_witness :
    ((lookupA loadedSwz25.sources { type := ItemType.Ship, xws := "t70xwing" }).getD
        []).map (fun s => (s.item.xws, s.count)) =
      ([swz25].filter (fun e => e.contents.any (fun c =>
          decide (c.item = { type := ItemType.Ship, xws := "t70xwing" })))).map
        (fun e => (e.sku, contentCountOf e { type := ItemType.Ship, xws := "t70xwing" })) :=
  sources_one_entry_per_expansion [swz25] loadedSwz25 (by decide) (by rfl)
    { type := ItemType.Ship, xws := "t70xwing" }

/-- C9 counterexample: an expansion listing the same item twice loads
successfully but produces two source entries for that item, although
exactly one catalog expansion lists it — "exactly one entry per
expansion" fails as stated. -/
theorem sources_duplicate_content_cx :
    Catalog.load [dupContents] = Except.ok loadedDup
    ∧ ((lookupA loadedDup.sources { type := ItemType.Ship, xws := "a" }).getD []).length = 2
    ∧ ([dupContents].filter (fun e => e.contents.any (fun c =>
        decide (c.item = { type := ItemType.Ship, xws := "a" })))).length = 1 :=
  ⟨by rfl, by decide, by decide⟩

/-! ### Name canonicalization and resolution -/

theorem canonicalizeChars_eq (l : List Char) :
    (l.filter (fun c => yasb2.rustIsAlphanumeric c || c == '(')).map
      (fun c => if c == '(' then '-' else c.toLower) = canonicalizeSpecChars l := by
  induction l with
  | nil => rfl
  | cons c cs ih =>
    by_cases hp : c = '('
    · subst hp
      simp [List.filter_cons, canonicalizeSpecChars]
      simpa using ih
    · have hb : (c == '(') = false := by
        simp [hp]
      by_cases ha : yasb2.rustIsAlphanumeric c
      · simp [List.filter_cons, canonicalizeSpecChars, hp, ha, hb]
        simpa using ih
      · simp [List.filter_cons, canonicalizeSpecChars, hp, ha, hb]
        simpa using ih

/-- C8 counterexample: `to_canonical` keeps the alphanumeric character
`É` but does not lowercase it — the output is neither the `"é"` that
"lowercases every remaining character" demands nor the `""` that an
ASCII reading of "removes every character that is not alphanumeric"
would give, so the claim as stated is false at this input. -/
theorem to_canonical_nonascii_cx :
    yasb2.to_canonical ("É") = "É"
    ∧ ("É" : String) ≠ "é"
    ∧ ("É" : String) ≠ "" := by
  refine ⟨by decide, by decide, by decide⟩

/-- C8 (amended): on strings over the modelled character domain (code
points below 256, where the embedded character classes are exactly
Rust's), `to_canonical` is a total deterministic function equal to the
spec-side canonicalization: it removes every character that is neither
alphanumeric (Unicode-aware classes) nor `(`, maps `(` to `-`, and
ASCII-lowercases every kept character — non-ASCII alphanumerics pass
through unchanged — preserving the order of the kept characters. -/
theorem to_canonical_matches_spec (s : String)
    (_h : ∀ c ∈ s.data, c.toNat < 256) :
    yasb2.to_canonical s = canonicalizeSpec s := by
  unfold yasb2.to_canonical canonicalizeSpec
  rw [canonicalizeChars_eq]

/-- Witness for `to_canonical_matches_spec` at the reviewer-visible
Latin-1 input, which canonicalizes to `"padméamidala"` with the `é`
kept un-lowercased. -/
theorem to_canonical_matches_spec_witness :
    yasb2.to_canonical ("Padmé Amidala") = canonicalizeSpec ("Padmé Amidala")
    ∧ yasb2.to_canonical ("Padmé Amidala") = "padméamidala" :=
  ⟨to_canonical_matches_spec ("Padmé Amidala") (by decide), by decide⟩

/-- C4 counterexample: resolving the display name "TIE/FO Fighter" with
kind `Ship` does not produce the literal id `"tiefofighter-legacyyasb"`
claimed by the spec (no such override exists in the resolver). -/
theorem tiefofighter_literal_override_cx :
    yasb2.to_xws ("TIE/FO Fighter") ItemType.Ship ≠ "tiefofighter-legacyyasb" := by
  decide

/-- C4 (amended): resolving "TIE/FO Fighter" with kind `Ship` yields
plain canonicalization `"tiefofighter"`; `to_xws` applies no
ship-specific override (the ship rename table in the source is entirely
commented out). -/
theorem tiefofighter_resolves_plain :
    yasb2.to_xws ("TIE/FO Fighter") ItemType.Ship = "tiefofighter" := by
  decide

/-! ### `to_xws_collection` loop structure -/

theorem expLoop_eq (exps : yasb2.Expansions) (l : List (String × String))
    (m : List (Item × Nat)) (miss : List String) :
    yasb2.expLoop exps (yasb2.ExpState.mk m miss) l =
      (yasb2.expMapLoop exps m l).map
        (fun m' => yasb2.ExpState.mk m' (miss ++ l.flatMap (yasb2.expMissOf exps))) := by
  induction l generalizing m miss with
  | nil => simp [yasb2.expLoop, yasb2.expMapLoop]
  | cons entry rest ih =>
    cases hparse : yasb2.parseU32 entry.2 with
    | none =>
      have hstep : yasb2.expStep exps (yasb2.ExpState.mk m miss) entry = none := by
        simp only [yasb2.expStep, hparse]
      have hmstep : yasb2.expMapStep exps m entry = none := by
        simp only [yasb2.expMapStep, hparse]
      simp [yasb2.expLoop, yasb2.expMapLoop, hstep, hmstep]
    | some n =>
      by_cases hn : n = 0
      · have hstep : yasb2.expStep exps (yasb2.ExpState.mk m miss) entry =
            some (yasb2.ExpState.mk m miss) := by
          simp only [yasb2.expStep, hparse]
          rw [if_pos hn]
        have hmstep : yasb2.expMapStep exps m entry = some m := by
          simp only [yasb2.expMapStep, hparse]
          rw [if_pos hn]
        have hmiss : yasb2.expMissOf exps entry = [] := by
          simp only [yasb2.expMissOf, hparse]
          rw [if_pos hn]
        simp only [yasb2.expLoop, yasb2.expMapLoop, hstep, hmstep, List.flatMap_cons,
          hmiss, List.nil_append]
        exact ih m miss
      · cases hfind : exps.find?
            (fun ex => decide (ex.edition = 2) && decide (ex.name = entry.1)) with
        | some ex =>
          have hstep : yasb2.expStep exps (yasb2.ExpState.mk m miss) entry =
              some (yasb2.ExpState.mk (addContents n m ex.contents) miss) := by
            simp only [yasb2.expStep, hparse]
            rw [if_neg hn, hfind]
          have hmstep : yasb2.expMapStep exps m entry = some (addContents n m ex.contents) := by
            simp only [yasb2.expMapStep, hparse]
            rw [if_neg hn, hfind]
          have hmiss : yasb2.expMissOf exps entry = [] := by
            simp only [yasb2.expMissOf, hparse]
            rw [if_neg hn, hfind]
          simp only [yasb2.expLoop, yasb2.expMapLoop, hstep, hmstep, List.flatMap_cons,
            hmiss, List.nil_append]
          exact ih (addContents n m ex.contents) miss
        | none =>
          have hstep : yasb2.expStep exps (yasb2.ExpState.mk m miss) entry =
              some (yasb2.ExpState.mk m (miss ++ [entry.1])) := by
            simp only [yasb2.expStep, hparse]
            rw [if_neg hn, hfind]
          have hmstep : yasb2.expMapStep exps m entry = some m := by
            simp only [yasb2.expMapStep, hparse]
            rw [if_neg hn, hfind]
          have hmiss : yasb2.expMissOf exps entry = [entry.1] := by
            simp only [yasb2.expMissOf, hparse]
            rw [if_neg hn, hfind]
          simp only [yasb2.expLoop, yasb2.expMapLoop, hstep, hmstep, List.flatMap_cons, hmiss]
          rw [ih]
          cases yasb2.expMapLoop exps m rest with
          | none => rfl
          | some m' => simp

/-- C7: a declared expansion entry or single whose count string parses to
`0` is skipped entirely: the processing step returns the state unchanged,
and removing the entry from the declaration leaves every resolved map and
every diagnostic list identical. -/
theorem zero_count_skipped (name c : String) (hp : yasb2.parseU32 c = some 0) :
    (∀ (exps : yasb2.Expansions) (typ : ItemType) (st : yasb2.ResolveState),
      yasb2.resolveSinglesStep exps typ st (name, c) = some st)
    ∧ (∀ (exps : yasb2.Expansions) (st : yasb2.ExpState),
      yasb2.expStep exps st (name, c) = some st)
    ∧ (∀ (exps : yasb2.Expansions) (typ : ItemType) (st : yasb2.ResolveState)
        (l1 l2 : List (String × String)),
      yasb2.resolveSingles exps typ st (l1 ++ (name, c) :: l2) =
        yasb2.resolveSingles exps typ st (l1 ++ l2))
    ∧ (∀ (exps : yasb2.Expansions) (sing : Option yasb2.Singletons)
        (l1 l2 : List (String × String)),
      yasb2.Collection.to_xws_collection (yasb2.Collection.mk (l1 ++ (name, c) :: l2) sing)
          exps =
        yasb2.Collection.to_xws_collection (yasb2.Collection.mk (l1 ++ l2) sing) exps) := by
  have h1 : ∀ (exps : yasb2.Expansions) (typ : ItemType) (st : yasb2.ResolveState),
      yasb2.resolveSinglesStep exps typ st (name, c) = some st := by
    intro exps typ st
    simp [yasb2.resolveSinglesStep, hp]
  have h2 : ∀ (exps : yasb2.Expansions) (st : yasb2.ExpState),
      yasb2.expStep exps st (name, c) = some st := by
    intro exps st
    simp [yasb2.expStep, hp]
  have h3 : ∀ (exps : yasb2.Expansions) (typ : ItemType) (st : yasb2.ResolveState)
      (l1 l2 : List (String × String)),
      yasb2.resolveSingles exps typ st (l1 ++ (name, c) :: l2) =
        yasb2.resolveSingles exps typ st (l1 ++ l2) := by
    intro exps typ st l1 l2
    induction l1 generalizing st with
    | nil =>
      simp only [List.nil_append, yasb2.resolveSingles, h1]
    | cons entry rest ih =>
      simp only [List.cons_append, yasb2.resolveSingles]
      cases hstep : yasb2.resolveSinglesStep exps typ st entry with
      | none => rfl
      | some st' => exact ih st'
  have h4 : ∀ (exps : yasb2.Expansions) (st : yasb2.ExpState)
      (l1 l2 : List (String × String)),
      yasb2.expLoop exps st (l1 ++ (name, c) :: l2) = yasb2.expLoop exps st (l1 ++ l2) := by
    intro exps st l1 l2
    induction l1 generalizing st with
    | nil =>
      simp only [List.nil_append, yasb2.expLoop, h2]
    | cons entry rest ih =>
      simp only [List.cons_append, yasb2.expLoop]
      cases hstep : yasb2.expStep exps st entry with
      | none => rfl
      | some st' => exact ih st'
  refine ⟨h1, h2, h3, ?_⟩
  intro exps sing l1 l2
  unfold yasb2.Collection.to_xws_collection
  cases hsp : yasb2.singlesPhase exps sing with
  | none => rfl
  | some st =>
    simp only []
    rw [h4]

/-- Witness for `zero_count_skipped` at the literal count string "0". -/
theorem zero_count_skipped_witness :
    yasb2.resolveSinglesStep sampleExps2 ItemType.Ship
        (yasb2.ResolveState.mk [] [] []) ("T-70 X-Wing", "0") =
      some (yasb2.ResolveState.mk [] [] [])
    ∧ yasb2.Collection.to_xws_collection
        (yasb2.Collection.mk [("Bogus Pack", "0")] none) sampleExps2 =
      yasb2.Collection.to_xws_collection (yasb2.Collection.mk [] none) sampleExps2 :=
  ⟨(zero_count_skipped ("T-70 X-Wing") "0" (by decide)).1 sampleExps2 ItemType.Ship
      (yasb2.ResolveState.mk [] [] []),
   (zero_count_skipped ("Bogus Pack") "0" (by decide)).2.2.2 sampleExps2 none [] []⟩

/-- C5: when a singles entry resolves to an item already present in the
result map, the entry is dropped rather than summed: the map keeps the
first-seen count, only a duplicate-name diagnostic is appended, and the
rest of the state is untouched; a first occurrence of a resolvable item
is inserted with its own count. -/
theorem duplicate_single_first_wins (exps : yasb2.Expansions) (typ : ItemType)
    (st : yasb2.ResolveState) (name c : String) (n : Nat)
    (hp : yasb2.parseU32 c = some n) (hn : n ≠ 0)
    (hhas : yasb2.has_item exps (Item.mk typ (yasb2.to_xws name typ)) = true) :
    (∀ m, lookupA st.item_counts (Item.mk typ (yasb2.to_xws name typ)) = some m →
      yasb2.resolveSinglesStep exps typ st (name, c) =
        some (yasb2.ResolveState.mk st.item_counts st.missing_singles (st.dups ++ [name]))
      ∧ lookupA st.item_counts (Item.mk typ (yasb2.to_xws name typ)) = some m)
    ∧ (lookupA st.item_counts (Item.mk typ (yasb2.to_xws name typ)) = none →
      yasb2.resolveSinglesStep exps typ st (name, c) =
        some (yasb2.ResolveState.mk
          (insertA st.item_counts (Item.mk typ (yasb2.to_xws name typ)) n)
          st.missing_singles st.dups)) := by
  constructor
  · intro m hm
    refine ⟨?_, hm⟩
    simp only [yasb2.resolveSinglesStep, hp]
    rw [if_neg hn]
    simp [hhas, hm]
  · intro hnone
    simp only [yasb2.resolveSinglesStep, hp]
    rw [if_neg hn]
    simp [hhas, hnone]

/-- Witness for `duplicate_single_first_wins`: a second "T-70 X-Wing"
ship single is dropped with a diagnostic, keeping the stored count 3. -/
theorem duplicate_single_first_wins_witness :
    yasb2.resolveSinglesStep sampleExps2 ItemType.Ship
        (yasb2.ResolveState.mk [(Item.mk ItemType.Ship "t70xwing", 3)] [] [])
        ("T-70 X-Wing", "2") =
      some (yasb2.ResolveState.mk [(Item.mk ItemType.Ship "t70xwing", 3)] []
        ["T-70 X-Wing"])
    ∧ lookupA [(Item.mk ItemType.Ship "t70xwing", 3)]
        (Item.mk ItemType.Ship (yasb2.to_xws ("T-70 X-Wing") ItemType.Ship)) = some 3 :=
  (duplicate_single_first_wins sampleExps2 ItemType.Ship
      (yasb2.ResolveState.mk [(Item.mk ItemType.Ship "t70xwing", 3)] [] [])
      ("T-70 X-Wing") "2" 2 (by decide) (by decide) (by decide)).1 3 (by decide)

/-- Exhaustive description of what one singles iteration can do to the
state: skip, divert to `missing_singles`, drop a duplicate with a
diagnostic, or insert an item that some expansion contains. -/
theorem resolveSinglesStep_cases (exps : yasb2.Expansions) (typ : ItemType)
    (st : yasb2.ResolveState) (entry : String × String) (st1 : yasb2.ResolveState)
    (h : yasb2.resolveSinglesStep exps typ st entry = some st1) :
    st1 = st ∨
    (∃ it, st1 = yasb2.ResolveState.mk st.item_counts (st.missing_singles ++ [it]) st.dups) ∨
    (∃ nm, st1 = yasb2.ResolveState.mk st.item_counts st.missing_singles (st.dups ++ [nm])) ∨
    (∃ it k, yasb2.has_item exps it = true ∧
      st1 = yasb2.ResolveState.mk (insertA st.item_counts it k) st.missing_singles st.dups) := by
  simp only [yasb2.resolveSinglesStep] at h
  cases hparse : yasb2.parseU32 entry.2 with
  | none =>
    rw [hparse] at h
    exact absurd h (by simp)
  | some k =>
    rw [hparse] at h
    simp only [] at h
    by_cases hk : k = 0
    · rw [if_pos hk] at h
      cases h
      exact Or.inl rfl
    · rw [if_neg hk] at h
      by_cases hmiss : yasb2.has_item exps
          (Item.mk typ (yasb2.to_xws entry.1 typ)) = false
      · rw [if_pos hmiss] at h
        cases h
        exact Or.inr (Or.inl ⟨Item.mk typ (yasb2.to_xws entry.1 typ), rfl⟩)
      · rw [if_neg hmiss] at h
        by_cases hdup : (lookupA st.item_counts
            (Item.mk typ (yasb2.to_xws entry.1 typ))).isSome = true
        · rw [if_pos hdup] at h
          cases h
          exact Or.inr (Or.inr (Or.inl ⟨entry.1, rfl⟩))
        · rw [if_neg hdup] at h
          cases h
          refine Or.inr (Or.inr (Or.inr ⟨Item.mk typ (yasb2.to_xws entry.1 typ), k, ?_, rfl⟩))
          cases hb : yasb2.has_item exps (Item.mk typ (yasb2.to_xws entry.1 typ)) with
          | false => exact absurd hb hmiss
          | true => rfl

/-- C10: a singles entry whose resolved item occurs in no expansion's
contents is diverted to `missing_singles` and contributes nothing to the
counts; consequently every item in the resolved singles map occurs in
some expansion's contents. -/
theorem missing_singles_excluded :
    (∀ (exps : yasb2.Expansions) (typ : ItemType) (st : yasb2.ResolveState)
        (name c : String) (n : Nat),
      yasb2.parseU32 c = some n → n ≠ 0 →
      yasb2.has_item exps (Item.mk typ (yasb2.to_xws name typ)) = false →
      yasb2.resolveSinglesStep exps typ st (name, c) =
        some (yasb2.ResolveState.mk st.item_counts
          (st.missing_singles ++ [Item.mk typ (yasb2.to_xws name typ)]) st.dups))
    ∧ (∀ (exps : yasb2.Expansions) (typ : ItemType)
        (entries : List (String × String)) (st st' : yasb2.ResolveState),
      yasb2.resolveSingles exps typ st entries = some st' →
      ∀ it m, lookupA st'.item_counts it = some m →
        (lookupA st.item_counts it).isSome = true ∨ yasb2.has_item exps it = true)
    ∧ (∀ (exps : yasb2.Expansions) (sing : Option yasb2.Singletons)
        (st : yasb2.ResolveState),
      yasb2.singlesPhase exps sing = some st →
      ∀ it m, lookupA st.item_counts it = some m → yasb2.has_item exps it = true) := by
  have hstep : ∀ (exps : yasb2.Expansions) (typ : ItemType) (st : yasb2.ResolveState)
      (name c : String) (n : Nat),
      yasb2.parseU32 c = some n → n ≠ 0 →
      yasb2.has_item exps (Item.mk typ (yasb2.to_xws name typ)) = false →
      yasb2.resolveSinglesStep exps typ st (name, c) =
        some (yasb2.ResolveState.mk st.item_counts
          (st.missing_singles ++ [Item.mk typ (yasb2.to_xws name typ)]) st.dups) := by
    intro exps typ st name c n hp hn hmiss
    simp only [yasb2.resolveSinglesStep, hp]
    rw [if_neg hn]
    simp [hmiss]
  have hinv : ∀ (exps : yasb2.Expansions) (typ : ItemType)
      (entries : List (String × String)) (st st' : yasb2.ResolveState),
      yasb2.resolveSingles exps typ st entries = some st' →
      ∀ it m, lookupA st'.item_counts it = some m →
        (lookupA st.item_counts it).isSome = true ∨ yasb2.has_item exps it = true := by
    intro exps typ entries
    induction entries with
    | nil =>
      intro st st' hrun it m hlook
      simp only [yasb2.resolveSingles] at hrun
      cases hrun
      exact Or.inl (by simp [hlook])
    | cons entry rest ih =>
      intro st st' hrun it m hlook
      simp only [yasb2.resolveSingles] at hrun
      cases hst : yasb2.resolveSinglesStep exps typ st entry with
      | none =>
        rw [hst] at hrun
        exact absurd hrun (by simp)
      | some st1 =>
        rw [hst] at hrun
        simp only [] at hrun
        rcases ih st1 st' hrun it m hlook with hsome1 | hhas
        · rcases resolveSinglesStep_cases exps typ st entry st1 hst with
            rfl | ⟨jt, rfl⟩ | ⟨nm, rfl⟩ | ⟨jt, k, hjt, rfl⟩
          · exact Or.inl hsome1
          · exact Or.inl hsome1
          · exact Or.inl hsome1
          · rw [lookupA_insertA] at hsome1
            by_cases hit : jt = it
            · exact Or.inr (hit ▸ hjt)
            · rw [if_neg hit] at hsome1
              exact Or.inl hsome1
        · exact Or.inr hhas
  refine ⟨hstep, hinv, ?_⟩
  intro exps sing st hphase it m hlook
  cases sing with
  | none =>
    simp only [yasb2.singlesPhase] at hphase
    cases hphase
    simp [lookupA] at hlook
  | some singles =>
    simp only [yasb2.singlesPhase] at hphase
    cases h1 : yasb2.resolveSingles exps ItemType.Upgrade
        (yasb2.ResolveState.mk [] [] []) (singles.upgrade.getD []) with
    | none =>
      rw [h1] at hphase
      exact absurd hphase (by simp)
    | some st1 =>
      rw [h1] at hphase
      simp only [] at hphase
      cases h2 : yasb2.resolveSingles exps ItemType.Pilot st1 (singles.pilot.getD []) with
      | none =>
        rw [h2] at hphase
        exact absurd hphase (by simp)
      | some st2 =>
        rw [h2] at hphase
        simp only [] at hphase
        rcases hinv exps ItemType.Ship (singles.ship.getD []) st2 st hphase it m hlook with
          hς | hdone
        · obtain ⟨m2, hm2⟩ := Option.isSome_iff_exists.mp hς
          rcases hinv exps ItemType.Pilot (singles.pilot.getD []) st1 st2 h2 it m2 hm2 with
            hσ | hdone
          · obtain ⟨m1, hm1⟩ := Option.isSome_iff_exists.mp hσ
            rcases hinv exps ItemType.Upgrade (singles.upgrade.getD [])
                (yasb2.ResolveState.mk [] [] []) st1 h1 it m1 hm1 with h0 | hdone
            · simp [lookupA] at h0
            · exact hdone
          · exact hdone
        · exact hdone

/-- Witness for `missing_singles_excluded`: an unknown ship single is
diverted to the missing list, and an invariant instance on a concrete
run. -/
theorem missing_singles_excluded_witness :
    yasb2.resolveSinglesStep sampleExps2 ItemType.Ship
        (yasb2.ResolveState.mk [] [] []) ("Ghost", "1") =
      some (yasb2.ResolveState.mk [] [Item.mk ItemType.Ship "ghost"] [])
    ∧ ((lookupA ([] : List (Item × Nat)) (Item.mk ItemType.Ship "t70xwing")).isSome = true
        ∨ yasb2.has_item sampleExps2 (Item.mk ItemType.Ship "t70xwing") = true) :=
  ⟨(missing_singles_excluded).1 sampleExps2 ItemType.Ship
      (yasb2.ResolveState.mk [] [] []) ("Ghost") "1" 1 (by decide) (by decide) (by decide),
   (missing_singles_excluded).2.1 sampleExps2 ItemType.Ship
      [("T-70 X-Wing", "4")] (yasb2.ResolveState.mk [] [] [])
      (yasb2.ResolveState.mk [(Item.mk ItemType.Ship "t70xwing", 4)] [] [])
      (by decide) (Item.mk ItemType.Ship "t70xwing") 4 (by decide)⟩

/-! ### Isolation of resolution failures -/

theorem invFold_append (catalog : Catalog) (inv : List (Item × Nat))
    (l1 l2 : List (SKU × Nat)) :
    invFold catalog inv (l1 ++ l2) = invFold catalog (invFold catalog inv l1) l2 := by
  induction l1 generalizing inv with
  | nil => rfl
  | cons p rest ih =>
    simp only [List.cons_append, invFold]
    exact ih _

theorem invFold_skip (catalog : Catalog) (inv : List (Item × Nat)) (sku : SKU)
    (cnt : Nat) (hnone : lookupA catalog.expansions sku = none) (l : List (SKU × Nat)) :
    invFold catalog inv ((sku, cnt) :: l) = invFold catalog inv l := by
  simp only [invFold]
  rw [hnone]

theorem expMapLoop_skip (exps : yasb2.Expansions) (e c : String) (n : Nat)
    (hp : yasb2.parseU32 c = some n) (hn : n ≠ 0)
    (hfind : exps.find? (fun ex => decide (ex.edition = 2) && decide (ex.name = e)) = none)
    (m : List (Item × Nat)) (l1 l2 : List (String × String)) :
    yasb2.expMapLoop exps m (l1 ++ (e, c) :: l2) = yasb2.expMapLoop exps m (l1 ++ l2) := by
  induction l1 generalizing m with
  | nil =>
    simp only [List.nil_append, yasb2.expMapLoop]
    have hstep : yasb2.expMapStep exps m (e, c) = some m := by
      simp only [yasb2.expMapStep, hp]
      rw [if_neg hn, hfind]
    rw [hstep]
  | cons entry rest ih =>
    simp only [List.cons_append, yasb2.expMapLoop]
    cases hstep : yasb2.expMapStep exps m entry with
    | none => rfl
    | some m' => exact ih m'

/-- C3: reference-resolution failures never abort aggregation and
contribute nothing to the counts.  (a) A declared expansion entry whose
name matches no catalog expansion only lands in `missing_expansions`:
the item counts, missing singles and duplicate diagnostics equal those
of the same declaration with the entry removed.  (b) A sku the catalog
does not know only lands in the missing-sku list: the inventory map
equals the one computed without that entry. -/
theorem resolution_failures_isolated :
    (∀ (exps : yasb2.Expansions) (sing : Option yasb2.Singletons)
        (l1 l2 : List (String × String)) (e c : String) (n : Nat),
      yasb2.parseU32 c = some n → n ≠ 0 → (∀ ex ∈ exps, ex.name ≠ e) →
      ∀ xc d, yasb2.Collection.to_xws_collection (yasb2.Collection.mk (l1 ++ l2) sing)
          exps = some (xc, d) →
        xc.missing_expansions =
          l1.flatMap (yasb2.expMissOf exps) ++ l2.flatMap (yasb2.expMissOf exps) ∧
        yasb2.Collection.to_xws_collection
            (yasb2.Collection.mk (l1 ++ (e, c) :: l2) sing) exps =
          some (yasb2.XwsCollection.mk xc.item_counts xc.missing_singles
            (l1.flatMap (yasb2.expMissOf exps) ++ e :: l2.flatMap (yasb2.expMissOf exps)),
            d))
    ∧ (∀ (catalog : Catalog) (singles : List (Item × Nat)) (l1 l2 : List (SKU × Nat))
        (sku : SKU) (cnt : Nat), lookupA catalog.expansions sku = none →
      ((Collection.mk (l1 ++ (sku, cnt) :: l2) singles).inventory catalog).1 =
        ((Collection.mk (l1 ++ l2) singles).inventory catalog).1 ∧
      ((Collection.mk (l1 ++ (sku, cnt) :: l2) singles).inventory catalog).2 =
        l1.flatMap (missOf catalog) ++ sku :: l2.flatMap (missOf catalog) ∧
      ((Collection.mk (l1 ++ l2) singles).inventory catalog).2 =
        l1.flatMap (missOf catalog) ++ l2.flatMap (missOf catalog)) := by
  constructor
  · intro exps sing l1 l2 e c n hp hn hname xc d hrun
    have hfind : exps.find?
        (fun ex => decide (ex.edition = 2) && decide (ex.name = e)) = none := by
      rw [List.find?_eq_none]
      intro ex hex
      simp [hname ex hex]
    have hec : yasb2.expMissOf exps (e, c) = [e] := by
      simp only [yasb2.expMissOf, hp]
      rw [if_neg hn, hfind]
    unfold yasb2.Collection.to_xws_collection at hrun ⊢
    cases hsp : yasb2.singlesPhase exps sing with
    | none =>
      rw [hsp] at hrun
      exact absurd hrun (by simp)
    | some st =>
      rw [hsp] at hrun
      simp only [] at hrun ⊢
      rw [expLoop_eq] at hrun
      rw [expLoop_eq, expMapLoop_skip exps e c n hp hn hfind]
      cases hml : yasb2.expMapLoop exps st.item_counts (l1 ++ l2) with
      | none =>
        rw [hml] at hrun
        exact absurd hrun (by simp)
      | some m' =>
        rw [hml] at hrun
        try simp only [] at hrun
        try simp only []
        injection hrun with h
        injection h with h1 h2
        subst h1
        subst h2
        refine ⟨by simp [List.flatMap_append], ?_⟩
        simp [List.flatMap_append, List.flatMap_cons, hec]
  · intro catalog singles l1 l2 sku cnt hnone
    have hm : missOf catalog (sku, cnt) = [sku] := by
      simp only [missOf]
      rw [hnone]
    refine ⟨?_, ?_, ?_⟩
    · rw [inventory_eq, inventory_eq]
      rw [invFold_append, invFold_append, invFold_skip catalog _ sku cnt hnone]
    · rw [inventory_eq]
      simp [List.flatMap_append, List.flatMap_cons, hm]
    · rw [inventory_eq]
      simp [List.flatMap_append]

/-- Witness for `resolution_failures_isolated`: an unknown sku only adds
itself to the missing list of a one-entry collection. -/
theorem resolution_failures_isolated_witness :
    ((Collection.mk ([] ++ ("swz99", 1) :: []) []).inventory sampleCatalog).1 =
      ((Collection.mk ([] ++ []) []).inventory sampleCatalog).1 ∧
    ((Collection.mk ([] ++ ("swz99", 1) :: []) []).inventory sampleCatalog).2 =
      List.flatMap ([] : List (SKU × Nat)) (missOf sampleCatalog) ++ "swz99" ::
        List.flatMap ([] : List (SKU × Nat)) (missOf sampleCatalog) ∧
    ((Collection.mk ([] ++ []) []).inventory sampleCatalog).2 =
      List.flatMap ([] : List (SKU × Nat)) (missOf sampleCatalog) ++
        List.flatMap ([] : List (SKU × Nat)) (missOf sampleCatalog) :=
  resolution_failures_isolated.2 sampleCatalog [] [] [] "swz99" 1 (by decide)

